import Mathlib

/-!
Verification of the github-pr-monitor repository: a shallow embedding of
its review-state classifier, SQLite-backed store, recheck scheduler,
notification poller and key encoding, with theorems checking the spec's
claims about them. Times and durations are modelled as natural numbers of
seconds; SQLite boolean columns (0/1 integers) as Bool.
-/

/- ===== Review-state classifier (main.go, checkReviewStatus) ===== -/

/-- A pull-request review as the classifier consumes it: reviewer login,
review state string, and submission time (seconds; Go's zero time is 0). -/
structure Review where
  user : String
  state : String
  submittedAt : Nat
deriving DecidableEq, Repr

/-- A commit as the classifier consumes it: the committer timestamp. -/
structure Commit where
  committerDate : Nat
deriving DecidableEq, Repr

/-- One step of building the latest-review-per-reviewer map: Go's
`latestReviews[user] = review` when the user is absent or the new review's
submission time is strictly after the stored one. The Go map is modelled
as an association list; the program only reads order-independent facts
from it (existence of an APPROVED value and the max APPROVED time). -/
def insertLatest (acc : List (String × Review)) (r : Review) : List (String × Review) :=
  match acc with
  | [] => [(r.user, r)]
  | (u, e) :: rest =>
    if u = r.user then
      if e.submittedAt < r.submittedAt then (u, r) :: rest else (u, e) :: rest
    else (u, e) :: insertLatest rest r

/-- The latest review per distinct reviewer, as the loop over `reviews`
computes it. -/
def latestReviews (reviews : List Review) : List (String × Review) :=
  reviews.foldl insertLatest []

/-- Whether some latest-per-reviewer review has state APPROVED. -/
def hasApproval (reviews : List Review) : Bool :=
  (latestReviews reviews).any (fun p => decide (p.2.state = "APPROVED"))

/-- The maximum submission time among APPROVED latest reviews, starting
from Go's zero time: `if review.GetSubmittedAt().After(latestApprovalTime)`. -/
def latestApprovalTime (reviews : List Review) : Nat :=
  (latestReviews reviews).foldl
    (fun acc p =>
      if decide (p.2.state = "APPROVED") && decide (acc < p.2.submittedAt) then
        p.2.submittedAt
      else acc)
    0

/-- `checkReviewStatus` from main.go. `reviews = none` models a failed
review-list fetch, `commits = none` a failed commit-list fetch (the Go
client returns an error there); the result is (needsReview, needsReapproval). -/
def checkReviewStatus (reviews : Option (List Review)) (commits : Option (List Commit)) :
    Bool × Bool :=
  match reviews with
  | none => (true, false)
  | some rs =>
    if rs.isEmpty then (true, false)
    else if !hasApproval rs then (true, false)
    else
      match commits with
      | none => (false, false)
      | some cs =>
        if cs.any (fun c => decide (latestApprovalTime rs < c.committerDate)) then
          (false, true)
        else (false, false)

theorem latestReviews_nil : latestReviews [] = [] := rfl

theorem hasApproval_eq_false_of_none_approved (rs : List Review)
    (h : ∀ p ∈ latestReviews rs, p.2.state ≠ "APPROVED") : hasApproval rs = false := by
  simp only [hasApproval, List.any_eq_false, decide_eq_true_eq]
  exact h

theorem hasApproval_eq_true_of_approved (rs : List Review)
    (h : ∃ p ∈ latestReviews rs, p.2.state = "APPROVED") : hasApproval rs = true := by
  simp only [hasApproval, List.any_eq_true, decide_eq_true_eq]
  exact h

/-- The review-state classifier settles each of the claim's four shapes of
input as claimed: no reviews gives (true, false); reviews with no APPROVED
latest-per-reviewer review give (true, false); an APPROVED latest review
with no commit strictly after the latest approval time gives (false, false);
an APPROVED latest review with a strictly later commit gives (false, true). -/
theorem C2_classifier_cases (rs : List Review) (cs : List Commit) :
    (checkReviewStatus (some []) (some cs) = (true, false)) ∧
    ((∀ p ∈ latestReviews rs, p.2.state ≠ "APPROVED") →
      checkReviewStatus (some rs) (some cs) = (true, false)) ∧
    ((∃ p ∈ latestReviews rs, p.2.state = "APPROVED") →
      (∀ c ∈ cs, c.committerDate ≤ latestApprovalTime rs) →
      checkReviewStatus (some rs) (some cs) = (false, false)) ∧
    ((∃ p ∈ latestReviews rs, p.2.state = "APPROVED") →
      (∃ c ∈ cs, latestApprovalTime rs < c.committerDate) →
      checkReviewStatus (some rs) (some cs) = (false, true)) := by
  have hne : (∃ p ∈ latestReviews rs, p.2.state = "APPROVED") → rs ≠ [] := by
    rintro ⟨p, hp, -⟩ rfl
    simp [latestReviews_nil] at hp
  refine ⟨rfl, ?_, ?_, ?_⟩
  · intro h
    cases rs with
    | nil => rfl
    | cons r rest =>
      simp [checkReviewStatus, hasApproval_eq_false_of_none_approved _ h]
  · intro hap hc
    have hrs := hne hap
    have : ¬ (cs.any (fun c => decide (latestApprovalTime rs < c.committerDate)) = true) := by
      simp only [List.any_eq_true, decide_eq_true_eq, not_exists, not_and]
      intro c hmem
      exact not_lt.mpr (hc c hmem)
    cases rs with
    | nil => exact absurd rfl hrs
    | cons r rest =>
      simp [checkReviewStatus, hasApproval_eq_true_of_approved _ hap, this]
  · intro hap hc
    have hrs := hne hap
    have : cs.any (fun c => decide (latestApprovalTime rs < c.committerDate)) = true := by
      simp only [List.any_eq_true, decide_eq_true_eq]
      exact hc
    cases rs with
    | nil => exact absurd rfl hrs
    | cons r rest =>
      simp [checkReviewStatus, hasApproval_eq_true_of_approved _ hap, this]

/-- The classifier's failure handling is asymmetric as claimed: a failed
review-list fetch fails open to (true, false) whatever the commits are,
while a failed commit-list fetch after a latest APPROVED review fails
closed to (false, false). -/
theorem C3_error_asymmetry (rs : List Review) (cs : Option (List Commit))
    (h : ∃ p ∈ latestReviews rs, p.2.state = "APPROVED") :
    checkReviewStatus none cs = (true, false) ∧
    checkReviewStatus (some rs) none = (false, false) := by
  refine ⟨rfl, ?_⟩
  have hrs : rs ≠ [] := by
    rintro rfl
    obtain ⟨p, hp, -⟩ := h
    simp [latestReviews_nil] at hp
  cases rs with
  | nil => exact absurd rfl hrs
  | cons r rest =>
    simp [checkReviewStatus, hasApproval_eq_true_of_approved _ h]

/-- Witness for C3 at a concrete input: one APPROVED review. -/
theorem C3_error_asymmetry_witness :
    checkReviewStatus none (some []) = (true, false) ∧
    checkReviewStatus (some [⟨"alice", "APPROVED", 100⟩]) none = (false, false) :=
  C3_error_asymmetry [⟨"alice", "APPROVED", 100⟩] (some [])
    ⟨("alice", ⟨"alice", "APPROVED", 100⟩), by decide, rfl⟩

/- ===== Data model and store (main.go PRInfo, db.go prs table) ===== -/

/-- PRInfo from main.go, with the field names of the Go struct. -/
structure PRInfo where
  Repo : String
  Number : Nat
  Title : String
  Author : String
  URL : String
  NeedsReview : Bool
  NeedsReapproval : Bool
deriving DecidableEq, Repr

/-- One row of the `prs` table (db.go), integer flag columns as Bool and
the RFC3339 `last_checked` text as the write's timestamp. -/
structure Row where
  repo : String
  number : Nat
  title : String
  author : String
  url : String
  needsReview : Bool
  needsReapproval : Bool
  ignored : Bool
  muted : Bool
  lastChecked : Nat
deriving DecidableEq, Repr

/-- The WHERE clause `repo = ? AND number = ?` of the keyed statements. -/
def rowKey (repo : String) (number : Nat) (r : Row) : Bool :=
  decide (r.repo = repo ∧ r.number = number)

/-- The row a keyed SELECT returns: the table holds at most one row per
(repo, number) primary key. -/
def findRow (db : List Row) (repo : String) (number : Nat) : Option Row :=
  db.find? (rowKey repo number)

/-- dbSavePR from db.go: INSERT .. ON CONFLICT (repo, number) DO UPDATE.
The insert writes ignored = 0 and leaves muted at its column default 0;
the conflict update rewrites title, author, url, needs_review,
needs_reapproval and last_checked only. -/
def dbSavePR (db : List Row) (pr : PRInfo) (now : Nat) : List Row :=
  if db.any (rowKey pr.Repo pr.Number) then
    db.map (fun r =>
      if rowKey pr.Repo pr.Number r then
        { r with
          title := pr.Title, author := pr.Author, url := pr.URL,
          needsReview := pr.NeedsReview, needsReapproval := pr.NeedsReapproval,
          lastChecked := now }
      else r)
  else
    db ++ [{ repo := pr.Repo, number := pr.Number, title := pr.Title,
             author := pr.Author, url := pr.URL,
             needsReview := pr.NeedsReview, needsReapproval := pr.NeedsReapproval,
             ignored := false, muted := false, lastChecked := now }]

/-- dbRemovePR: DELETE FROM prs WHERE repo = ? AND number = ?. -/
def dbRemovePR (db : List Row) (repo : String) (number : Nat) : List Row :=
  db.filter (fun r => !rowKey repo number r)

/-- dbRemoveRepoActivePRs: DELETE FROM prs WHERE repo = ? AND ignored = 0
AND muted = 0. -/
def dbRemoveRepoActivePRs (db : List Row) (repo : String) : List Row :=
  db.filter (fun r => !(decide (r.repo = repo) && !r.ignored && !r.muted))

/-- dbClearIgnored: DELETE FROM prs WHERE ignored = 1. -/
def dbClearIgnored (db : List Row) : List Row :=
  db.filter (fun r => !r.ignored)

/-- dbIgnoredCount: SELECT COUNT(*) FROM prs WHERE ignored = 1. -/
def dbIgnoredCount (db : List Row) : Nat :=
  db.countP (fun r => r.ignored)

/-- dbIsIgnored: the keyed SELECT of the ignored column; a missing row
reads as false (the Scan error branch). -/
def dbIsIgnored (db : List Row) (repo : String) (number : Nat) : Bool :=
  ((findRow db repo number).map (fun r => r.ignored)).getD false

/-- dbIsMuted, same shape as dbIsIgnored. -/
def dbIsMuted (db : List Row) (repo : String) (number : Nat) : Bool :=
  ((findRow db repo number).map (fun r => r.muted)).getD false

/-- dbUnmutePR: UPDATE prs SET muted = 0 WHERE repo = ? AND number = ?. -/
def dbUnmutePR (db : List Row) (repo : String) (number : Nat) : List Row :=
  db.map (fun r => if rowKey repo number r then { r with muted := false } else r)

/-- A classification upsert through dbSavePR leaves the keyed record's
ignored and muted flags exactly as they were, and a fresh insert starts
with both false: reading the flags after the upsert gives the old flags
when the row existed and (false, false) otherwise. -/
theorem C4_upsert_preserves_flags (db : List Row) (pr : PRInfo) (now : Nat) :
    (findRow (dbSavePR db pr now) pr.Repo pr.Number).map (fun r => (r.ignored, r.muted))
      = some (((findRow db pr.Repo pr.Number).map (fun r => (r.ignored, r.muted))).getD
          (false, false)) := by
  induction db with
  | nil =>
    simp [dbSavePR, findRow, rowKey]
  | cons r db ih =>
    by_cases hk : r.repo = pr.Repo ∧ r.number = pr.Number
    · have hkey : rowKey pr.Repo pr.Number r = true := by
        simp [rowKey, hk.1, hk.2]
      simp [dbSavePR, findRow, List.any_cons, hkey, List.find?, rowKey, hk.1, hk.2]
    · have hkey : rowKey pr.Repo pr.Number r = false := by
        simp only [rowKey, decide_eq_false_iff_not]
        exact hk
      by_cases hany : db.any (rowKey pr.Repo pr.Number) = true
      · simp only [dbSavePR, List.any_cons, hkey, Bool.false_or, hany, if_true,
          List.map_cons, hkey, if_false] at ih ⊢
        simpa [findRow, List.find?, hkey] using ih
      · have hany' : db.any (rowKey pr.Repo pr.Number) = false :=
          Bool.eq_false_iff.mpr hany
        simp only [dbSavePR, List.any_cons, hkey, Bool.false_or, hany', if_false,
          List.cons_append] at ih ⊢
        simpa [findRow, List.find?, hkey] using ih

/-- dbClearIgnored deletes every ignored record (muted or not) rather
than resetting the flag, leaves no ignored record and a zero ignored
count, and keeps every record that was not ignored. -/
theorem C10_clear_ignored_deletes (db : List Row) :
    dbIgnoredCount (dbClearIgnored db) = 0 ∧
    (∀ r ∈ dbClearIgnored db, r.ignored = false) ∧
    (∀ r ∈ db, r.ignored = true → r ∉ dbClearIgnored db) ∧
    (∀ r ∈ db, r.ignored = false → r ∈ dbClearIgnored db) := by
  refine ⟨?_, ?_, ?_, ?_⟩
  · simp only [dbIgnoredCount, dbClearIgnored, List.countP_eq_zero]
    intro r hr
    have := (List.mem_filter.mp hr).2
    simpa using this
  · intro r hr
    have := (List.mem_filter.mp hr).2
    simpa using this
  · intro r hr hig hmem
    have := (List.mem_filter.mp hmem).2
    simp [hig] at this
  · intro r hr hig
    exact List.mem_filter.mpr ⟨hr, by simp [hig]⟩

/-- Witness for C10 on a concrete table: an ignored-and-muted row is
deleted, an active row survives, and the ignored count drops to zero. -/
theorem C10_clear_ignored_witness :
    dbIgnoredCount (dbClearIgnored
      [⟨"o/a", 1, "t", "u", "", false, false, true, true, 0⟩,
       ⟨"o/b", 2, "t", "u", "", true, false, false, false, 0⟩]) = 0 ∧
    (⟨"o/a", 1, "t", "u", "", false, false, true, true, 0⟩ : Row) ∉ dbClearIgnored
      [⟨"o/a", 1, "t", "u", "", false, false, true, true, 0⟩,
       ⟨"o/b", 2, "t", "u", "", true, false, false, false, 0⟩] ∧
    (⟨"o/b", 2, "t", "u", "", true, false, false, false, 0⟩ : Row) ∈ dbClearIgnored
      [⟨"o/a", 1, "t", "u", "", false, false, true, true, 0⟩,
       ⟨"o/b", 2, "t", "u", "", true, false, false, false, 0⟩] := by
  refine ⟨(C10_clear_ignored_deletes _).1, ?_, ?_⟩
  · exact (C10_clear_ignored_deletes _).2.2.1 _ (by simp) rfl
  · exact (C10_clear_ignored_deletes _).2.2.2 _ (by simp) rfl

/- ===== Recheck scheduler (main.go, recheckSchedule / runRecheckLoop /
resumeRechecks) ===== -/

/-- The fixed escalating schedule built in init(): 10 checks 1 minute
apart, 10 checks 2 minutes apart, 6 checks 5 minutes apart, in seconds. -/
def recheckSchedule : List Nat :=
  List.replicate 10 60 ++ List.replicate 10 120 ++ List.replicate 6 300

/-- recheckTotalDuration: the sum of the schedule's intervals. -/
def recheckTotalSecs : Nat :=
  recheckSchedule.foldl (fun total d => total + d) 0

/-- The cumulative check offsets the loop walks (cumulative += interval). -/
def cumOffsets : List Nat → Nat → List Nat
  | [], _ => []
  | d :: rest, acc => (acc + d) :: cumOffsets rest (acc + d)

/-- The cumulative offsets of the full schedule, from its start. -/
def recheckCumOffsets : List Nat := cumOffsets recheckSchedule 0

/-- The body of runRecheckLoop's for-loop over the schedule, recording
each recheckPR call it makes as (isCatchUp, cumulativeOffset). A passed
offset (cumulative <= elapsed) triggers a single catch-up check only when
cumulative + interval > elapsed with the CURRENT iteration's interval; a
future offset is slept for and then checked. Sleeps are modelled as exact,
so elapsed stays the position of the walk relative to startedAt, and the
loop is taken to run to completion (no early-stop answer from recheckPR). -/
def recheckLoopGo (elapsed : Nat) : List Nat → Nat → Bool → List (Bool × Nat)
  | [], _, _ => []
  | d :: rest, cumulative, didCatchUp =>
    let c := cumulative + d
    if c ≤ elapsed then
      if !didCatchUp && decide (elapsed < c + d) then
        (true, c) :: recheckLoopGo elapsed rest c true
      else
        recheckLoopGo elapsed rest c didCatchUp
    else
      (false, c) :: recheckLoopGo elapsed rest c didCatchUp

/-- The checks a worker performs when it starts with the given elapsed
time since startedAt. -/
def recheckLoopChecks (elapsed : Nat) : List (Bool × Nat) :=
  recheckLoopGo elapsed recheckSchedule 0 false

/-- The claim fails on the code: at elapsed = 660 s (11 minutes) the
schedule's 60-minute span is not exhausted and the 600 s offset is already
passed, yet the worker performs zero catch-up checks, because the guard
cumulative + interval > elapsed uses the current tier's 60 s interval
(600 + 60 is not > 660) while the next offset 720 is in the future. At the
claim's own example elapsed = 2100 s (35 minutes) exactly one catch-up
happens, so the slip is confined to tier boundaries. -/
theorem C1_tier_boundary_skips_catchup :
    recheckTotalSecs = 3600 ∧
    recheckCumOffsets.any (fun c => decide (c ≤ 660)) = true ∧
    660 < recheckTotalSecs ∧
    (recheckLoopChecks 660).countP Prod.fst = 0 ∧
    (recheckLoopChecks 2100).countP Prod.fst = 1 := by
  refine ⟨by decide, by decide, by decide, by decide, by decide⟩

/-- A persisted recheck task row (db.go rechecks table). -/
structure RecheckEntry where
  repo : String
  number : Nat
  startedAt : Nat
deriving DecidableEq, Repr

/-- An observable action of a resumed task: a recheckPR call or the
dbRemoveRecheck delete of the task row. -/
inductive REv where
  | check
  | removeTask
deriving DecidableEq, Repr

/-- The action trace of startRecheck's goroutine: runRecheckLoop's checks,
then the deferred dbRemoveRecheck. -/
def workerTrace (elapsed : Nat) : List REv :=
  (recheckLoopChecks elapsed).map (fun _ => REv.check) ++ [REv.removeTask]

/-- resumeRechecks' handling of one loaded task at time now: a task whose
schedule span is exhausted gets one recheckPR call and then the deferred
dbRemoveRecheck; any other task is handed to startRecheck with the
persisted startedAt, so its worker sees elapsed = now - startedAt. -/
def resumeTrace (now : Nat) (e : RecheckEntry) : List REv :=
  if recheckTotalSecs < now - e.startedAt then
    [REv.check, REv.removeTask]
  else
    workerTrace (now - e.startedAt)

/-- resumeRechecks behaves as claimed: a task whose age exceeds the
60-minute span performs exactly one final check and then removes the task,
and a task within the span resumes a worker whose elapsed time is computed
from the original persisted startedAt, not reset to now. -/
theorem C7_resume_rechecks (now : Nat) (e : RecheckEntry) :
    (recheckTotalSecs < now - e.startedAt →
      resumeTrace now e = [REv.check, REv.removeTask] ∧
      (resumeTrace now e).countP (fun ev => decide (ev = REv.check)) = 1) ∧
    (now - e.startedAt ≤ recheckTotalSecs →
      resumeTrace now e = workerTrace (now - e.startedAt)) ∧
    recheckTotalSecs = 3600 := by
  refine ⟨?_, ?_, by decide⟩
  · intro h
    rw [resumeTrace, if_pos h]
    exact ⟨rfl, by decide⟩
  · intro h
    rw [resumeTrace, if_neg (by omega)]

/-- Witness for C7: a task 90 minutes old gets the single final check and
removal; a task 35 minutes old resumes the worker at elapsed 2100 s. -/
theorem C7_resume_rechecks_witness :
    resumeTrace 5400 ⟨"o/r", 1, 0⟩ = [REv.check, REv.removeTask] ∧
    resumeTrace 2100 ⟨"o/r", 2, 0⟩ = workerTrace 2100 :=
  ⟨((C7_resume_rechecks 5400 ⟨"o/r", 1, 0⟩).1 (by decide)).1,
   (C7_resume_rechecks 2100 ⟨"o/r", 2, 0⟩).2.1 (by decide)⟩

/- ===== Repository sweep (main.go, refreshRepos) ===== -/

/-- The DB half of refreshRepos: dbRemoveRepoActivePRs for each repo of
the batch, then dbSavePR for each fetched PR. -/
def clearActiveForRepos (db : List Row) (repos : List String) : List Row :=
  repos.foldl dbRemoveRepoActivePRs db

/-- refreshRepos' persistent effect: clear the batch's active rows, then
upsert the newly fetched PR set. -/
def refreshReposDB (db : List Row) (repos : List String) (newPRs : List PRInfo)
    (now : Nat) : List Row :=
  newPRs.foldl (fun d pr => dbSavePR d pr now) (clearActiveForRepos db repos)

/-- The Go sort.Slice comparator of refreshRepos as a non-strict order:
by repository, then by number. -/
def prLE (a b : PRInfo) : Prop :=
  a.Repo < b.Repo ∨ (a.Repo = b.Repo ∧ a.Number ≤ b.Number)

instance : DecidableRel prLE := fun a b => by
  unfold prLE
  infer_instance

instance : IsTotal PRInfo prLE :=
  ⟨fun a b => by
    rcases lt_trichotomy a.Repo b.Repo with h | h | h
    · exact Or.inl (Or.inl h)
    · rcases le_total a.Number b.Number with hn | hn
      · exact Or.inl (Or.inr ⟨h, hn⟩)
      · exact Or.inr (Or.inr ⟨h.symm, hn⟩)
    · exact Or.inr (Or.inl h)⟩

instance : IsTrans PRInfo prLE :=
  ⟨fun a b c hab hbc => by
    rcases hab with h1 | ⟨e1, n1⟩ <;> rcases hbc with h2 | ⟨e2, n2⟩
    · exact Or.inl (h1.trans h2)
    · exact Or.inl (lt_of_lt_of_le h1 (le_of_eq e2))
    · exact Or.inl (lt_of_le_of_lt (le_of_eq e1) h2)
    · exact Or.inr ⟨e1.trans e2, n1.trans n2⟩⟩

/-- The in-memory half of refreshRepos: drop cached entries of the swept
repositories, append the fetched set, sort by (repository, number). The
Go sort.Slice is modelled by insertion sort, which realises the same
contract (a sorted permutation under the comparator). -/
def refreshReposMem (prs : List PRInfo) (repos : List String) (newPRs : List PRInfo) :
    List PRInfo :=
  List.insertionSort prLE (prs.filter (fun pr => !decide (pr.Repo ∈ repos)) ++ newPRs)

theorem clearActiveForRepos_eq_filter (db : List Row) (repos : List String) :
    clearActiveForRepos db repos
      = db.filter (fun r => !(decide (r.repo ∈ repos) && !r.ignored && !r.muted)) := by
  induction repos generalizing db with
  | nil =>
    refine (List.filter_eq_self.mpr ?_).symm
    intro r _
    simp
  | cons repo rest ih =>
    have step : clearActiveForRepos db (repo :: rest)
        = clearActiveForRepos (dbRemoveRepoActivePRs db repo) rest := rfl
    rw [step, ih, dbRemoveRepoActivePRs, List.filter_filter]
    refine List.filter_congr ?_
    intro r _
    by_cases h1 : r.repo = repo <;> by_cases h2 : r.repo ∈ rest <;>
      cases hi : r.ignored <;> cases hm : r.muted <;>
        simp [h1, h2, hi, hm, List.mem_cons]

theorem find?_filter_of_imp {p q : Row → Bool} (db : List Row)
    (h : ∀ r, p r = true → q r = true) :
    (db.filter q).find? p = db.find? p := by
  induction db with
  | nil => rfl
  | cons r db ih =>
    by_cases hp : p r = true
    · rw [List.filter_cons, if_pos (h r hp)]
      simp [List.find?, hp, ih]
    · have hp' : p r = false := Bool.eq_false_iff.mpr hp
      by_cases hq : q r = true
      · rw [List.filter_cons, if_pos hq]
        simp [List.find?, hp', ih]
      · rw [List.filter_cons, if_neg hq]
        simp [List.find?, hp', ih]

theorem find?_map_invariant (f : Row → Row) (p : Row → Bool) (db : List Row)
    (h1 : ∀ r, p (f r) = p r) (h2 : ∀ r, p r = true → f r = r) :
    (db.map f).find? p = db.find? p := by
  induction db with
  | nil => rfl
  | cons r db ih =>
    cases hp : p r with
    | true => simp [List.find?, h1 r, hp, h2 r hp]
    | false => simp [List.find?, h1 r, hp, ih]

theorem findRow_dbSavePR_of_ne (db : List Row) (pr : PRInfo) (now : Nat)
    (repo : String) (number : Nat) (h : ¬(repo = pr.Repo ∧ number = pr.Number)) :
    findRow (dbSavePR db pr now) repo number = findRow db repo number := by
  rw [findRow, findRow, dbSavePR]
  by_cases hany : db.any (rowKey pr.Repo pr.Number) = true
  · rw [if_pos hany]
    refine find?_map_invariant _ _ db ?_ ?_
    · intro r
      by_cases hk : rowKey pr.Repo pr.Number r = true
      · rw [if_pos hk]
        rfl
      · rw [if_neg hk]
    · intro r hp
      have hk : rowKey pr.Repo pr.Number r = false := by
        have hp' : r.repo = repo ∧ r.number = number := by
          simpa [rowKey] using hp
        simp only [rowKey, decide_eq_false_iff_not]
        rintro ⟨hrepo, hnum⟩
        exact h ⟨by rw [← hp'.1, hrepo], by rw [← hp'.2, hnum]⟩
      rw [if_neg (by simp [hk])]
  · rw [if_neg hany, List.find?_append]
    have hlast : List.find? (rowKey repo number)
        [({ repo := pr.Repo, number := pr.Number, title := pr.Title,
            author := pr.Author, url := pr.URL,
            needsReview := pr.NeedsReview, needsReapproval := pr.NeedsReapproval,
            ignored := false, muted := false, lastChecked := now } : Row)] = none := by
      have hkey : rowKey repo number
          ({ repo := pr.Repo, number := pr.Number, title := pr.Title,
             author := pr.Author, url := pr.URL,
             needsReview := pr.NeedsReview, needsReapproval := pr.NeedsReapproval,
             ignored := false, muted := false, lastChecked := now } : Row) = false := by
        simp only [rowKey, decide_eq_false_iff_not]
        rintro ⟨hrepo, hnum⟩
        exact h ⟨hrepo.symm, hnum.symm⟩
      simp [List.find?, hkey]
    rw [hlast]
    cases List.find? (rowKey repo number) db <;> rfl

theorem findRow_fold_save (newPRs : List PRInfo) (now : Nat) (repos : List String)
    (repo : String) (number : Nat)
    (hnew : ∀ pr ∈ newPRs, pr.Repo ∈ repos) (hrepo : repo ∉ repos) :
    ∀ db : List Row,
      findRow (newPRs.foldl (fun d pr => dbSavePR d pr now) db) repo number
        = findRow db repo number := by
  induction newPRs with
  | nil => intro db; rfl
  | cons pr ps ih =>
    intro db
    rw [List.foldl_cons,
      ih (fun q hq => hnew q (List.mem_cons_of_mem _ hq)) (dbSavePR db pr now)]
    refine findRow_dbSavePR_of_ne db pr now repo number ?_
    rintro ⟨hrepo', -⟩
    refine hrepo ?_
    rw [hrepo']
    exact hnew pr (List.mem_cons_self _ _)

theorem exists_row_dbSavePR (db : List Row) (pr : PRInfo) (now : Nat) :
    ∀ row ∈ db, ∃ rw ∈ dbSavePR db pr now,
      rw.repo = row.repo ∧ rw.number = row.number ∧
      rw.ignored = row.ignored ∧ rw.muted = row.muted := by
  intro row hmem
  rw [dbSavePR]
  by_cases hany : db.any (rowKey pr.Repo pr.Number) = true
  · rw [if_pos hany]
    have hmm := List.mem_map_of_mem
      (fun r => if rowKey pr.Repo pr.Number r then
        { r with
          title := pr.Title, author := pr.Author, url := pr.URL,
          needsReview := pr.NeedsReview, needsReapproval := pr.NeedsReapproval,
          lastChecked := now }
      else r) hmem
    by_cases hk : rowKey pr.Repo pr.Number row = true
    · simp only [hk, if_true] at hmm
      exact ⟨_, hmm, rfl, rfl, rfl, rfl⟩
    · simp only [Bool.eq_false_iff.mpr hk, if_false, Bool.false_eq_true] at hmm
      exact ⟨row, hmm, rfl, rfl, rfl, rfl⟩
  · rw [if_neg hany]
    exact ⟨row, List.mem_append_left _ hmem, rfl, rfl, rfl, rfl⟩

theorem exists_row_fold_save (newPRs : List PRInfo) (now : Nat) :
    ∀ db : List Row, ∀ row ∈ db,
      ∃ rw ∈ newPRs.foldl (fun d pr => dbSavePR d pr now) db,
        rw.repo = row.repo ∧ rw.number = row.number ∧
        rw.ignored = row.ignored ∧ rw.muted = row.muted := by
  induction newPRs with
  | nil => exact fun db row h => ⟨row, h, rfl, rfl, rfl, rfl⟩
  | cons pr ps ih =>
    intro db row h
    obtain ⟨r1, h1, e1, e2, e3, e4⟩ := exists_row_dbSavePR db pr now row h
    obtain ⟨r2, h2, f1, f2, f3, f4⟩ := ih (dbSavePR db pr now) r1 h1
    exact ⟨r2, h2, f1.trans e1, f2.trans e2, f3.trans e3, f4.trans e4⟩

/-- A sweep of a batch of repositories leaves other repositories' rows
untouched (reads by key are unchanged), its clearing phase deletes exactly
the active rows of the batch, ignored or muted rows survive with their
flags intact, and the refreshed in-memory view is a permutation of the
untouched repositories' cached entries plus the fetched set, sorted by
(repository, number). The fetched set lives in the swept repositories
(fetchRepoPRs tags each result with the repo it queried). -/
theorem C5_sweep_frame (db : List Row) (repos : List String) (newPRs : List PRInfo)
    (now : Nat) (prs : List PRInfo)
    (hnew : ∀ pr ∈ newPRs, pr.Repo ∈ repos) :
    (∀ repo number, repo ∉ repos →
      findRow (refreshReposDB db repos newPRs now) repo number = findRow db repo number) ∧
    (clearActiveForRepos db repos
      = db.filter (fun r => !(decide (r.repo ∈ repos) && !r.ignored && !r.muted))) ∧
    (∀ row ∈ db, (row.ignored || row.muted) = true →
      ∃ rw ∈ refreshReposDB db repos newPRs now,
        rw.repo = row.repo ∧ rw.number = row.number ∧
        rw.ignored = row.ignored ∧ rw.muted = row.muted) ∧
    List.Sorted prLE (refreshReposMem prs repos newPRs) ∧
    (refreshReposMem prs repos newPRs).Perm
      (prs.filter (fun pr => !decide (pr.Repo ∈ repos)) ++ newPRs) := by
  refine ⟨?_, clearActiveForRepos_eq_filter db repos, ?_, ?_, ?_⟩
  · intro repo number hrepo
    rw [refreshReposDB, findRow_fold_save newPRs now repos repo number hnew hrepo,
      clearActiveForRepos_eq_filter]
    refine find?_filter_of_imp db ?_
    intro r hp
    have hr : r.repo = repo := by
      have := (of_decide_eq_true hp).1
      exact this
    have : decide (r.repo ∈ repos) = false := by
      simp [hr, hrepo]
    simp [this]
  · intro row hrow hflags
    have hclear : row ∈ clearActiveForRepos db repos := by
      rw [clearActiveForRepos_eq_filter]
      refine List.mem_filter.mpr ⟨hrow, ?_⟩
      cases hi : row.ignored with
      | true => simp
      | false =>
        cases hm : row.muted with
        | true => simp
        | false => simp [hi, hm] at hflags
    exact exists_row_fold_save newPRs now _ row hclear
  · exact List.sorted_insertionSort prLE _
  · exact List.perm_insertionSort prLE _

/-- Witness for C5 on concrete data: sweeping repo o/a leaves repo o/b's
row readable unchanged, and the merged view is sorted. -/
theorem C5_sweep_frame_witness :
    findRow (refreshReposDB [⟨"o/b", 7, "t", "u", "", true, false, false, false, 0⟩]
        ["o/a"] [⟨"o/a", 1, "t", "u", "", true, false⟩] 0) "o/b" 7
      = findRow [⟨"o/b", 7, "t", "u", "", true, false, false, false, 0⟩] "o/b" 7 ∧
    List.Sorted prLE (refreshReposMem [] ["o/a"] [⟨"o/a", 1, "t", "u", "", true, false⟩]) :=
  ⟨(C5_sweep_frame [⟨"o/b", 7, "t", "u", "", true, false, false, false, 0⟩]
      ["o/a"] [⟨"o/a", 1, "t", "u", "", true, false⟩] 0 [] (by decide)).1
        "o/b" 7 (by decide),
   (C5_sweep_frame [⟨"o/b", 7, "t", "u", "", true, false, false, false, 0⟩]
      ["o/a"] [⟨"o/a", 1, "t", "u", "", true, false⟩] 0 [] (by decide)).2.2.2.1⟩

/- ===== Notification poller (notifications.go) ===== -/

/-- The configuration fields the poller reads (config.yaml repos/authors). -/
structure Config where
  repos : List String
  authors : List String
deriving Repr

/-- The durable store the poller touches: the prs table and the scalar
state table of db.go. -/
structure Store where
  state : List (String × String)
  prs : List Row
deriving Repr

/-- dbGetState: the keyed SELECT of the state table; a missing key reads
as the empty string. -/
def dbGetState (st : Store) (key : String) : String :=
  (((st.state.find? (fun p => decide (p.1 = key))).map Prod.snd).getD "")

/-- dbSetState: INSERT .. ON CONFLICT (key) DO UPDATE SET value. -/
def dbSetState (st : Store) (key value : String) : Store :=
  { st with
    state :=
      if st.state.any (fun p => decide (p.1 = key)) then
        st.state.map (fun p => if decide (p.1 = key) then (p.1, value) else p)
      else st.state ++ [(key, value)] }

/-- The data of one fetched pull request that processNotifications reads,
with the review and commit lists its classification will fetch (none for
a failed fetch, as in checkReviewStatus). -/
structure PRData where
  number : Nat
  title : String
  author : String
  url : String
  state : String
  draft : Bool
  reviewRequestedForUser : Bool
  reviews : Option (List Review)
  commits : Option (List Commit)
deriving Repr

/-- One notification item together with the outcome of the PR fetch it
would trigger; fetched = none covers both a missing client for the org
and a failed GET (the store is untouched either way, the thread is only
marked read). -/
structure Notif where
  subjectType : String
  repoFullName : String
  subjectURL : String
  fetched : Option PRData
deriving Repr

/-- extractPRNumber: split the subject URL on '/', take the last segment,
parse it as a decimal number (strconv.Atoi on the digit strings these
URLs carry). -/
def extractPRNumber (apiURL : String) : Option Nat :=
  let parts := apiURL.splitOn "/"
  if parts.length < 2 then none
  else (parts.getLast?.getD "").toNat?

/-- The body of processNotifications' loop for one item: every branch ends
by marking the thread read (no store effect); only the pr-record branches
write. -/
def processNotification (cfg : Config) (now : Nat) (st : Store) (n : Notif) : Store :=
  if !(decide (n.subjectType = "PullRequest") && decide (n.repoFullName ∈ cfg.repos)) then
    st
  else
    match extractPRNumber n.subjectURL with
    | none => st
    | some prNumber =>
      if dbIsIgnored st.prs n.repoFullName prNumber then st
      else
        match n.fetched with
        | none => st
        | some pr =>
          if dbIsMuted st.prs n.repoFullName prNumber && !pr.reviewRequestedForUser then
            st
          else
            let st1 :=
              if dbIsMuted st.prs n.repoFullName prNumber then
                { st with prs := dbUnmutePR st.prs n.repoFullName prNumber }
              else st
            if !(decide (pr.state = "open")) || pr.draft ||
                !(decide (pr.author ∈ cfg.authors)) then
              { st1 with prs := dbRemovePR st1.prs n.repoFullName prNumber }
            else
              match checkReviewStatus pr.reviews pr.commits with
              | (needsReview, needsReapproval) =>
                if needsReview || needsReapproval then
                  { st1 with
                    prs := dbSavePR st1.prs
                      ⟨n.repoFullName, pr.number, pr.title, pr.author, pr.url,
                       needsReview, needsReapproval⟩ now }
                else
                  { st1 with prs := dbRemovePR st1.prs n.repoFullName prNumber }

/-- processNotifications over the fetched page of items. -/
def processNotifications (cfg : Config) (now : Nat) (st : Store)
    (ns : List Notif) : Store :=
  ns.foldl (processNotification cfg now) st

/-- The response a conditional notifications poll can see: 304 Not
Modified, another transport or API error, or a 200 with the Last-Modified
and X-Poll-Interval headers and the (already paginated) notification
items. -/
inductive PollResp where
  | notModified
  | failed
  | ok (lastModified : Option String) (pollIntervalHeader : Option String)
      (notifs : List Notif)

/-- pollNotifications: the 304 and error branches return before any store
write with newInterval 0; a 200 stores the Last-Modified header when
present, stores and adopts a positive X-Poll-Interval when present, then
processes the items. -/
def pollNotifications (cfg : Config) (now : Nat) (st : Store) (resp : PollResp) :
    Store × Nat :=
  match resp with
  | .notModified => (st, 0)
  | .failed => (st, 0)
  | .ok lastModified pollIntervalHeader notifs =>
    let st1 :=
      match lastModified with
      | some v => dbSetState st "notifications_last_modified" v
      | none => st
    let stepped :=
      match pollIntervalHeader with
      | some v =>
        match v.toNat? with
        | some secs =>
          if 0 < secs then (dbSetState st1 "notifications_poll_interval" v, secs)
          else (st1, 0)
        | none => (st1, 0)
      | none => (st1, 0)
    (processNotifications cfg now stepped.1 notifs, stepped.2)

/-- notificationLoop's reaction to the returned interval: reset the ticker
only on a positive interval that differs from the current one. -/
def nextTickInterval (current newInterval : Nat) : Nat :=
  if 0 < newInterval ∧ newInterval ≠ current then newInterval else current

/-- A 304 Not-Modified poll writes nothing: the store is returned as is
(so the stored notifications_last_modified and notifications_poll_interval
values and every PR row are unchanged) and the returned interval 0 leaves
the ticker's interval as it was. -/
theorem C6_not_modified_no_writes (cfg : Config) (now : Nat) (st : Store)
    (interval : Nat) :
    pollNotifications cfg now st PollResp.notModified = (st, 0) ∧
    dbGetState (pollNotifications cfg now st PollResp.notModified).1
        "notifications_last_modified"
      = dbGetState st "notifications_last_modified" ∧
    dbGetState (pollNotifications cfg now st PollResp.notModified).1
        "notifications_poll_interval"
      = dbGetState st "notifications_poll_interval" ∧
    (pollNotifications cfg now st PollResp.notModified).1.prs = st.prs ∧
    nextTickInterval interval (pollNotifications cfg now st PollResp.notModified).2
      = interval := by
  refine ⟨rfl, rfl, rfl, rfl, ?_⟩
  show nextTickInterval interval 0 = interval
  rw [nextTickInterval]
  simp

/- ===== Priority-tiered scheduler jitter ===== -/

/-- Modelled from the spec: the priority-tiered scheduler reschedules each
swept repository's next deadline to now + interval plus or minus 20%
jitter. The tiered scheduler's source (added in changelog 0.2.0) is not
among the repository's files, so the deadline computation is taken from
the spec's words, with the random draw r uniform in [0, 1] and the jitter
offset interval * (2r - 1) / 5. -/
def nextPollDeadline (now interval r : ℚ) : ℚ :=
  now + interval + interval * (2 * r - 1) / 5

/-- Every computed next-poll deadline lies within [0.8 interval,
1.2 interval] of the time it is computed. -/
theorem C8_jitter_bound (now interval r : ℚ) (h0 : 0 ≤ r) (h1 : r ≤ 1)
    (hI : 0 ≤ interval) :
    now + 4/5 * interval ≤ nextPollDeadline now interval r ∧
    nextPollDeadline now interval r ≤ now + 6/5 * interval := by
  constructor <;> rw [nextPollDeadline] <;>
    nlinarith [mul_nonneg hI h0, mul_nonneg hI (sub_nonneg.mpr h1)]

/-- Witness for C8 at the extreme draw r = 1 with a 5-unit interval. -/
theorem C8_jitter_bound_witness :
    (0 : ℚ) + 4/5 * 5 ≤ nextPollDeadline 0 5 1 ∧
    nextPollDeadline 0 5 1 ≤ (0 : ℚ) + 6/5 * 5 :=
  C8_jitter_bound 0 5 1 (by norm_num) (by norm_num) (by norm_num)

/- ===== PR key encoding (main.go PRInfo.Key, db.go parsePRKey) ===== -/

/-- The decimal digit characters fmt's %d emits. -/
def digitChar (n : Nat) : Char :=
  match n with
  | 0 => '0'
  | 1 => '1'
  | 2 => '2'
  | 3 => '3'
  | 4 => '4'
  | 5 => '5'
  | 6 => '6'
  | 7 => '7'
  | 8 => '8'
  | _ => '9'

/-- The decimal rendering of a natural number, embedding fmt.Sprintf's %d
verb for the non-negative numbers a PR carries. -/
def natDecimal (n : Nat) : List Char :=
  if h : n < 10 then [digitChar n]
  else natDecimal (n / 10) ++ [digitChar (n % 10)]
termination_by n
decreasing_by
  exact Nat.div_lt_self (by omega) (by omega)

/-- PRInfo.Key: fmt.Sprintf("%s#%d", pr.Repo, pr.Number). -/
def PRInfo.Key (pr : PRInfo) : String :=
  pr.Repo ++ "#" ++ String.mk (natDecimal pr.Number)

/-- parsePRKey's backwards scan for '#': everything before the last '#'
and everything after it, or none when the key has no '#'. -/
def lastHashSplit : List Char → Option (List Char × List Char)
  | [] => none
  | c :: rest =>
    match lastHashSplit rest with
    | some (pre, suf) => some (c :: pre, suf)
    | none => if c = '#' then some ([], rest) else none

/-- The value fmt.Sscanf's %d verb reads from the digit strings these keys
carry: the leading run of digits, folded into a number (an empty run reads
as Go's untouched 0). -/
def digitsVal (cs : List Char) : Nat :=
  cs.foldl (fun acc c => acc * 10 + (c.toNat - 48)) 0

def scanDecimalChars (cs : List Char) : Nat :=
  digitsVal (cs.takeWhile Char.isDigit)

/-- parsePRKey from db.go: scan from the end for '#', the prefix is the
repo, the suffix is scanned as a decimal number; no '#' gives ("", 0). -/
def parsePRKey (key : String) : String × Nat :=
  match lastHashSplit key.data with
  | some (pre, suf) => (String.mk pre, scanDecimalChars suf)
  | none => ("", 0)

theorem digitChar_isDigit (n : Nat) (h : n < 10) : (digitChar n).isDigit = true := by
  interval_cases n <;> decide

theorem digitChar_toNat (n : Nat) (h : n < 10) : (digitChar n).toNat - 48 = n := by
  interval_cases n <;> decide

theorem natDecimal_digits (n : Nat) : ∀ c ∈ natDecimal n, c.isDigit = true := by
  induction n using Nat.strong_induction_on with
  | _ n ih =>
    rw [natDecimal]
    split
    · next h =>
      intro c hc
      simp only [List.mem_singleton] at hc
      subst hc
      exact digitChar_isDigit n h
    · next h =>
      intro c hc
      rcases List.mem_append.mp hc with h1 | h1
      · exact ih (n / 10) (Nat.div_lt_self (by omega) (by omega)) c h1
      · simp only [List.mem_singleton] at h1
        subst h1
        exact digitChar_isDigit _ (Nat.mod_lt _ (by omega))

theorem digitsVal_append_digit (a : List Char) (c : Char) :
    digitsVal (a ++ [c]) = digitsVal a * 10 + (c.toNat - 48) := by
  simp [digitsVal, List.foldl_append]

theorem digitsVal_natDecimal (n : Nat) : digitsVal (natDecimal n) = n := by
  induction n using Nat.strong_induction_on with
  | _ n ih =>
    rw [natDecimal]
    split
    · next h =>
      simp [digitsVal, digitChar_toNat n h]
    · next h =>
      rw [digitsVal_append_digit,
        ih (n / 10) (Nat.div_lt_self (by omega) (by omega)),
        digitChar_toNat _ (Nat.mod_lt _ (by omega))]
      omega

theorem scanDecimalChars_natDecimal (n : Nat) :
    scanDecimalChars (natDecimal n) = n := by
  rw [scanDecimalChars, List.takeWhile_eq_self_iff.mpr (natDecimal_digits n),
    digitsVal_natDecimal]

theorem lastHashSplit_eq_none (cs : List Char) (h : ∀ c ∈ cs, c ≠ '#') :
    lastHashSplit cs = none := by
  induction cs with
  | nil => rfl
  | cons c rest ih =>
    have hr := ih (fun x hx => h x (List.mem_cons_of_mem _ hx))
    simp [lastHashSplit, hr, h c (List.mem_cons_self _ _)]

theorem lastHashSplit_append (pre suf : List Char) (h : ∀ c ∈ suf, c ≠ '#') :
    lastHashSplit (pre ++ '#' :: suf) = some (pre, suf) := by
  induction pre with
  | nil =>
    simp [lastHashSplit, lastHashSplit_eq_none suf h]
  | cons c rest ih =>
    simp [lastHashSplit, ih]

/-- Round trip of the PR key encoding: for every repository string
(including ones containing '#' or the empty one) and every positive
number, parsePRKey undoes PRInfo.Key exactly, because it splits on the
key's last '#' and the decimal digits contain none. -/
theorem C9_key_roundtrip (pr : PRInfo) (h : 0 < pr.Number) :
    parsePRKey pr.Key = (pr.Repo, pr.Number) := by
  have hnohash : ∀ c ∈ natDecimal pr.Number, c ≠ '#' := by
    intro c hc heq
    subst heq
    have := natDecimal_digits pr.Number '#' hc
    exact absurd this (by decide)
  have hdata : (pr.Repo ++ "#" ++ String.mk (natDecimal pr.Number)).data
      = pr.Repo.data ++ '#' :: natDecimal pr.Number := by
    rw [String.data_append, String.data_append]
    simp
  rw [parsePRKey, PRInfo.Key, hdata, lastHashSplit_append _ _ hnohash]
  show (String.mk pr.Repo.data, scanDecimalChars (natDecimal pr.Number))
      = (pr.Repo, pr.Number)
  rw [scanDecimalChars_natDecimal]

/-- Witness for C9: a repository name that itself contains '#'. -/
theorem C9_key_roundtrip_witness :
    parsePRKey (PRInfo.Key ⟨"a#b", 57, "t", "u", "", true, false⟩) = ("a#b", 57) :=
  C9_key_roundtrip ⟨"a#b", 57, "t", "u", "", true, false⟩ (by decide)
